import Mathlib

/-!
# node-mapnik: `Datasource` and `MemoryDatasource`

A shallow embedding of `src/mapnik_datasource.cpp` and
`src/mapnik_memory_datasource.cpp`, followed by theorems about the two
constructors, `MemoryDatasource::add` and the two `featureset` methods.

The host values (V8) and the mapnik library types are external to the two
source files; the parts of them that the methods observe are modelled in the
first two sections, each with a note saying what it stands for.
-/

set_option autoImplicit false

namespace NodeMapnik

/-! ## Host values -/

/-- A JavaScript number, that is an IEEE-754 double: not-a-number, the two
infinities, negative zero, or a finite value given by the rational it denotes
(`finite 0` is positive zero). -/
inductive JSNumber where
  | nan
  | posInf
  | negInf
  | negZero
  | finite (q : ℚ)
deriving DecidableEq

/-- A JavaScript value as the two source files observe it. An object is the
list of its enumerable properties in enumeration order, property names being
given by their string conversion. -/
inductive JSValue where
  | undefined
  | null
  | boolean (b : Bool)
  | number (n : JSNumber)
  | string (s : String)
  | object (props : List (String × JSValue))

namespace JSNumber

/-- Rounding toward zero of a rational to an integer. -/
def trunc (q : ℚ) : Int :=
  if 0 ≤ q.num then q.num / (q.den : Int) else -((-q.num) / (q.den : Int))

/-- Value of `v8::Value::IsInt32` on a number: an integral value in the signed
32-bit range that is not negative zero. -/
def IsInt32 : JSNumber → Bool
  | finite q => decide (q.den = 1 ∧ -(2 : Int) ^ 31 ≤ q.num ∧ q.num ≤ 2 ^ 31 - 1)
  | _ => false

/-- Value of `v8::Value::IsUint32` on a number: an integral value in the
unsigned 32-bit range that is not negative zero. -/
def IsUint32 : JSNumber → Bool
  | finite q => decide (q.den = 1 ∧ 0 ≤ q.num ∧ q.num ≤ 2 ^ 32 - 1)
  | _ => false

/-- Value of `v8::Value::IntegerValue` on a number, a signed 64-bit integer:
the value rounded toward zero when that fits in 64 bits; zero for not-a-number
and the nearest bound for values outside the 64-bit range, as V8 documents the
conversion (older V8 releases leave these last cases to the C++ cast). Whatever
64-bit integer is returned there, it differs from a value beyond the range. -/
def IntegerValue : JSNumber → Int
  | nan => 0
  | posInf => 2 ^ 63 - 1
  | negInf => -(2 ^ 63)
  | negZero => 0
  | finite q =>
    if (2 : ℚ) ^ 63 ≤ q then 2 ^ 63 - 1
    else if q ≤ -(2 : ℚ) ^ 63 then -(2 ^ 63)
    else trunc q

/-- Number of low bits that do not fit in a 53-bit significand: the least `k`
with `a / 2 ^ k < 2 ^ 53`, found by halving at most `fuel` times. -/
def excessBits : Nat → Nat → Nat
  | 0, _ => 0
  | fuel + 1, a => if a < 2 ^ 53 then 0 else excessBits fuel (a / 2) + 1

/-- Conversion of a natural number to the nearest value with a 53-bit
significand, ties to even. -/
def round53 (a : Nat) : Nat :=
  let k := excessBits a a
  let m := a / 2 ^ k
  let r := a % 2 ^ k
  let half := 2 ^ (k - 1)
  if k = 0 then a
  else if half < r ∨ (r = half ∧ m % 2 = 1) then (m + 1) * 2 ^ k else m * 2 ^ k

/-- The C++ conversion of a signed 64-bit integer to `double`. -/
def int64ToDouble (i : Int) : ℚ :=
  if 0 ≤ i then ((round53 i.natAbs : Nat) : ℚ) else -((round53 i.natAbs : Nat) : ℚ)

/-- The C++ comparison `num == i` of a `double` with a signed 64-bit integer:
the integer is converted to `double` and the two doubles are compared. -/
def eqInt64 (num : JSNumber) (i : Int) : Bool :=
  match num with
  | nan => false
  | posInf => false
  | negInf => false
  | negZero => decide (int64ToDouble i = 0)
  | finite q => decide (q = int64ToDouble i)

end JSNumber

namespace JSValue

def IsUndefined : JSValue → Bool
  | undefined => true
  | _ => false

def IsNull : JSValue → Bool
  | null => true
  | _ => false

def IsBoolean : JSValue → Bool
  | boolean _ => true
  | _ => false

def IsNumber : JSValue → Bool
  | number _ => true
  | _ => false

def IsString : JSValue → Bool
  | string _ => true
  | _ => false

def IsObject : JSValue → Bool
  | object _ => true
  | _ => false

def IsInt32 : JSValue → Bool
  | number n => n.IsInt32
  | _ => false

def IsUint32 : JSValue → Bool
  | number n => n.IsUint32
  | _ => false

/-- Value of `v8::Value::BooleanValue` on a boolean. -/
def BooleanValue : JSValue → Bool
  | boolean b => b
  | _ => false

/-- Value of `v8::Value::NumberValue` on a number: the number itself. -/
def NumberValue : JSValue → JSNumber
  | number n => n
  | _ => JSNumber.nan

/-- Value of `v8::Value::IntegerValue` on a number. -/
def IntegerValue : JSValue → Int
  | number n => n.IntegerValue
  | _ => 0

end JSValue

/-- The property list of an object, as seen through `v8::Object`. -/
abbrev JSObject := List (String × JSValue)

namespace JSObject

/-- Method `v8::Object::Has`. -/
def Has (obj : JSObject) (key : String) : Bool :=
  (obj.lookup key).isSome

/-- Method `v8::Object::Get`: the value of the property, `undefined` when the
object has no such property. -/
def Get (obj : JSObject) (key : String) : JSValue :=
  match obj.lookup key with
  | some v => v
  | none => JSValue.undefined

/-- Method `v8::Object::GetPropertyNames`. -/
def GetPropertyNames (obj : JSObject) : List String :=
  obj.map Prod.fst

end JSObject

/-- The host operations that the two source files use without defining them. -/
structure Host where
  /-- Conversion `v8::Value::ToString` followed by UTF-8 encoding, for a value
  that is not a string. -/
  ToString : JSValue → String
  /-- Method `mapnik::transcoder::transcode` of the transcoder built for the
  given encoding name. -/
  transcode : String → String → String

/-- Modelled from the spec: the macro `TOSTR` of `utils.hpp`, which is not
under src/; the spec calls it the string conversion of a value. A string is
represented here by its converted text and so converts to itself; every other
value is converted by the host. -/
def TOSTR (h : Host) : JSValue → String
  | JSValue.string s => s
  | v => h.ToString v

/-- An exception thrown to the JavaScript caller. -/
inductive JSError where
  | Error (msg : String)
  | TypeError (msg : String)
deriving DecidableEq

/-- How a call of a bound method ends: with a return value or with a thrown
error. -/
inductive Completion (α : Type) where
  | returned (v : α)
  | threw (e : JSError)
deriving DecidableEq

/-- Argument `info[i]` of a call; `undefined` past the last argument. -/
def arg (info : List JSValue) (i : Nat) : JSValue :=
  info.getD i JSValue.undefined

/-- Cast `As<Object>` of a value already known to be an object. -/
def asObject : JSValue → JSObject
  | JSValue.object props => props
  | _ => []

/-! ## mapnik library types -/

namespace mapnik

/-- Modelled from the spec: the assignment `m[key] = val` on a keyed container
of the mapnik library (`mapnik/params.hpp` and `mapnik/feature.hpp` are not
under src/); the spec describes a mapping with unique keys that keeps insertion
order. An existing key keeps its place and takes the new value, a new key goes
to the end. -/
def assign {α : Type} (key : String) (val : α) : List (String × α) → List (String × α)
  | [] => [(key, val)]
  | (k, v) :: rest => if k = key then (key, val) :: rest else (k, v) :: assign key val rest

/-- The variant `mapnik::value_holder` of parameter values. -/
inductive value_holder where
  | null
  | integer (i : Int)
  | double (d : JSNumber)
  | string (s : String)
  | boolean (b : Bool)
deriving DecidableEq

/-- The container `mapnik::parameters`. -/
abbrev parameters := List (String × value_holder)

/-- The variant `mapnik::value` of feature attribute values. -/
inductive value where
  | null
  | boolean (b : Bool)
  | integer (i : Int)
  | double (d : JSNumber)
  | unicode_string (s : String)
deriving DecidableEq

/-- The geometry of a feature; this layer builds points only. -/
inductive geometry where
  | empty
  | point (x y : JSNumber)
deriving DecidableEq

/-- The class `mapnik::feature_impl`: identity, geometry and attributes. -/
structure feature_impl where
  id : Nat
  geom : geometry
  data : List (String × value)
deriving DecidableEq

/-- Function `mapnik::feature_factory::create`: a feature with the given
identity, no geometry and no attributes. -/
def feature_factory.create (fid : Nat) : feature_impl :=
  { id := fid, geom := geometry.empty, data := [] }

def feature_impl.set_geometry (f : feature_impl) (g : geometry) : feature_impl :=
  { f with geom := g }

def feature_impl.put_new (f : feature_impl) (key : String) (val : value) : feature_impl :=
  { f with data := assign key val f.data }

/-- Attribute of a feature under a name, if it has one. -/
def feature_impl.get (f : feature_impl) (key : String) : Option value :=
  f.data.lookup key

/-- The class `mapnik::memory_datasource`: its parameters and the features
pushed so far. -/
structure memory_datasource where
  params : parameters
  features_ : List feature_impl
deriving DecidableEq

/-- Constructor `mapnik::memory_datasource(params)`: no features yet. -/
def memory_datasource.create (params : parameters) : memory_datasource :=
  { params := params, features_ := [] }

def memory_datasource.push (m : memory_datasource) (f : feature_impl) : memory_datasource :=
  { m with features_ := m.features_ ++ [f] }

/-- The class `mapnik::transcoder`, named by its encoding. -/
structure transcoder where
  encoding : String
deriving DecidableEq

/-- The class `mapnik::box2d<double>`. -/
structure box2d where
  minx : JSNumber
  miny : JSNumber
  maxx : JSNumber
  maxy : JSNumber
deriving DecidableEq

/-- The class `mapnik::attribute_descriptor`: one field of a layer
descriptor. -/
structure attribute_descriptor where
  name : String
  type : Nat
deriving DecidableEq

def attribute_descriptor.get_name (a : attribute_descriptor) : String :=
  a.name

/-- The two operations of `mapnik::query` that `featureset` uses: the
constructor from a bounding box and `add_property_name`. The class is declared
in `mapnik/query.hpp`, which is not under src/. -/
structure QueryOps (Q : Type) where
  create : box2d → Q
  add_property_name : Q → String → Q

/-- Modelled from the spec: `mapnik::query` (`mapnik/query.hpp` is not under
src/), which the spec describes as an extent plus an ordered set of requested
property names. -/
structure query where
  bbox : box2d
  names : List String
deriving DecidableEq

/-- The operations of the spec-level query: a new query requests no property,
and a requested name is put after those already requested. -/
def query.ops : QueryOps query where
  create := fun e => { bbox := e, names := [] }
  add_property_name := fun q n => { q with names := q.names ++ [n] }

/-- Kind of a datasource, `mapnik::datasource::datasource_t`. -/
inductive datasource_t where
  | Vector
  | Raster
deriving DecidableEq

/-- The interface `mapnik::datasource` as the bindings use it. Each operation
either returns or throws a `std::exception` with a message; `features` may
return a null featureset pointer. -/
structure datasource (Q FS : Type) where
  type : datasource_t
  envelope : Except String box2d
  get_descriptor : Except String (List attribute_descriptor)
  features : Q → Except String (Option FS)

end mapnik

open mapnik

/-! ## `src/mapnik_memory_datasource.cpp` -/

/-- The class `MemoryDatasource`. The handle `datasource_` is the memory store
that the constructor creates before the object is handed to the caller.

Modelled from the spec: the member `feature_id_` is declared in
`mapnik_memory_datasource.hpp`, which is not under src/; the spec describes it
as a monotonically increasing integer counter, taken here as a natural
number. -/
structure MemoryDatasource where
  datasource_ : memory_datasource
  feature_id_ : Nat
  tr_ : transcoder
deriving DecidableEq

namespace MemoryDatasource

/-- One turn of the loop of `MemoryDatasource::New` over the names of the
options object (lines 82-100). -/
def New.step (h : Host) (options : JSObject) (params : parameters) (name : String) :
    parameters :=
  let value := options.Get name
  if value.IsUint32 || value.IsInt32 then
    assign (TOSTR h (JSValue.string name)) (value_holder.integer value.IntegerValue) params
  else if value.IsNumber then
    assign (TOSTR h (JSValue.string name)) (value_holder.double value.NumberValue) params
  else if value.IsBoolean then
    assign (TOSTR h (JSValue.string name)) (value_holder.boolean value.BooleanValue) params
  else
    assign (TOSTR h (JSValue.string name)) (value_holder.string (TOSTR h value)) params

/-- The parameters that `MemoryDatasource::New` builds from the options object
(lines 77-102): the loop over the property names, then `params["type"]`. -/
def New.params (h : Host) (options : JSObject) : parameters :=
  assign "type" (value_holder.string "memory")
    (options.GetPropertyNames.foldl (New.step h options) [])

/-- The constructor `MemoryDatasource::New`, called from JavaScript (the branch
for an `External` argument is taken only by `NewInstance` in C++). -/
def New (h : Host) (IsConstructCall : Bool) (info : List JSValue) :
    Completion MemoryDatasource :=
  if !IsConstructCall then
    Completion.threw
      (JSError.Error "Cannot call constructor as function, you need to use 'new' keyword")
  else if info.length != 1 then
    Completion.threw
      (JSError.TypeError "accepts only one argument, an object of key:value datasource options")
  else if !(arg info 0).IsObject then
    Completion.threw
      (JSError.TypeError "Must provide an object, eg \x7btype: 'shape', file : 'world.shp'\x7d")
  else
    let options := asObject (arg info 0)
    Completion.returned
      { datasource_ := memory_datasource.create (New.params h options)
        feature_id_ := 1
        tr_ := { encoding := "utf8" } }

/-- One turn of the loop of `MemoryDatasource::add` over the names of the
`properties` object (lines 217-235). -/
def add.step (h : Host) (tr_ : transcoder) (p_obj : JSObject) (feature : feature_impl)
    (name : String) : feature_impl :=
  let value := p_obj.Get name
  if value.IsString then
    feature.put_new (TOSTR h (JSValue.string name))
      (mapnik.value.unicode_string (h.transcode tr_.encoding (TOSTR h value)))
  else if value.IsNumber then
    let num := value.NumberValue
    if num.eqInt64 value.IntegerValue then
      feature.put_new (TOSTR h (JSValue.string name)) (mapnik.value.integer value.IntegerValue)
    else
      feature.put_new (TOSTR h (JSValue.string name)) (mapnik.value.double value.NumberValue)
  else if value.IsNull then
    feature.put_new (TOSTR h (JSValue.string name)) mapnik.value.null
  else
    feature

/-- The feature that `MemoryDatasource::add` builds for an accepted record
(lines 202-238). -/
def add.feature (h : Host) (tr_ : transcoder) (feature_id_ : Nat) (obj : JSObject) :
    feature_impl :=
  let x := obj.Get "x"
  let y := obj.Get "y"
  let feature := feature_factory.create feature_id_
  let feature := feature.set_geometry (geometry.point x.NumberValue y.NumberValue)
  if obj.Has "properties" then
    let props := obj.Get "properties"
    if props.IsObject then
      let p_obj := asObject props
      p_obj.GetPropertyNames.foldl (add.step h tr_ p_obj) feature
    else feature
  else feature

/-- The method `MemoryDatasource::add`: how the call ends, and the state of the
datasource afterwards. -/
def add (h : Host) (d : MemoryDatasource) (info : List JSValue) :
    Completion Bool × MemoryDatasource :=
  if info.length != 1 || !(arg info 0).IsObject then
    (Completion.threw
      (JSError.Error "accepts one argument: an object including x and y (or wkt) and properties"),
     d)
  else
    let obj := asObject (arg info 0)
    if obj.Has "wkt" || (obj.Has "x" && obj.Has "y") then
      if obj.Has "wkt" then
        (Completion.threw (JSError.Error "wkt not yet supported"), d)
      else
        let x := obj.Get "x"
        let y := obj.Get "y"
        if !x.IsUndefined && x.IsNumber && !y.IsUndefined && y.IsNumber then
          let feature := add.feature h d.tr_ d.feature_id_ obj
          (Completion.returned true,
           { d with
             feature_id_ := d.feature_id_ + 1
             datasource_ := d.datasource_.push feature })
        else (Completion.returned false, d)
    else (Completion.returned false, d)

/-- A sequence of `add` calls, one argument list per call: the outcomes in call
order and the final state. -/
def addAll (h : Host) : MemoryDatasource → List (List JSValue) →
    List (Completion Bool) × MemoryDatasource
  | d, [] => ([], d)
  | d, info :: rest =>
    let r := add h d info
    let rs := addAll h r.2 rest
    (r.1 :: rs.1, rs.2)

end MemoryDatasource

/-! ## The two `featureset` methods -/

/-- What `featureset` hands back: a wrapped featureset, `undefined` (the return
value was never set), a thrown error, or a C++ exception that no handler
caught. -/
inductive FeaturesetResult (FS : Type) where
  | featureset (fs : FS)
  | undefined
  | threw (e : JSError)
  | uncaught (what : String)
deriving DecidableEq

/-- The query that both `featureset` methods build (lines 240-249 and 149-163):
constructed from the envelope, then one `add_property_name` per descriptor, in
the order of the descriptor list. -/
def buildQuery {Q : Type} (ops : QueryOps Q) (envelope : box2d)
    (desc : List attribute_descriptor) : Q :=
  desc.foldl (fun q itr => ops.add_property_name q itr.get_name) (ops.create envelope)

/-- The body of the `try` block of `Datasource::featureset` (lines 240-251);
the memory variant runs the same statements without a handler. -/
def runQuery {Q FS : Type} (ops : QueryOps Q) (ds : datasource Q FS) :
    Except String (Option FS) :=
  match ds.envelope with
  | Except.error what => Except.error what
  | Except.ok e =>
    match ds.get_descriptor with
    | Except.error what => Except.error what
    | Except.ok desc => ds.features (buildQuery ops e desc)

/-- The end of `Datasource::featureset` (lines 253-273): the handler rethrows
the exception to JavaScript, a featureset pointer is wrapped and set as the
return value, and a null pointer falls through to the bare `return`. -/
def Datasource.featureset.finish {FS : Type} : Except String (Option FS) → FeaturesetResult FS
  | Except.error what => FeaturesetResult.threw (JSError.Error what)
  | Except.ok (some fs) => FeaturesetResult.featureset fs
  | Except.ok none => FeaturesetResult.undefined

/-- The method `Datasource::featureset`. -/
def Datasource.featureset {Q FS : Type} (ops : QueryOps Q) (ds : datasource Q FS) :
    FeaturesetResult FS :=
  Datasource.featureset.finish (runQuery ops ds)

/-- The end of `MemoryDatasource::featureset` (lines 164-175): there is no
handler, so an exception leaves the method uncaught; a featureset pointer is
wrapped and set as the return value, and a null pointer falls through to the
bare `return`. -/
def MemoryDatasource.featureset.finish {FS : Type} :
    Except String (Option FS) → FeaturesetResult FS
  | Except.error what => FeaturesetResult.uncaught what
  | Except.ok (some fs) => FeaturesetResult.featureset fs
  | Except.ok none => FeaturesetResult.undefined

/-- The method `MemoryDatasource::featureset`, on the handle `datasource_`,
which the method tests for null. -/
def MemoryDatasource.featureset {Q FS : Type} (ops : QueryOps Q)
    (datasource_ : Option (datasource Q FS)) : FeaturesetResult FS :=
  match datasource_ with
  | none => FeaturesetResult.undefined
  | some ds => MemoryDatasource.featureset.finish (runQuery ops ds)

/-! ## `src/mapnik_datasource.cpp` -/

/-- The class `Datasource` after construction: the backend handle and the
`type` property set on the JavaScript object. -/
structure Datasource (DS : Type) where
  datasource_ : DS
  type : String

namespace Datasource

/-- One turn of the loop of `Datasource::New` over the names of the options
object (lines 101-107). -/
def New.step (h : Host) (options : JSObject) (params : parameters) (name : String) :
    parameters :=
  let value := options.Get name
  assign (TOSTR h (JSValue.string name)) (value_holder.string (TOSTR h value)) params

/-- The parameters that `Datasource::New` builds from the options object
(lines 97-107). -/
def New.params (h : Host) (options : JSObject) : parameters :=
  options.GetPropertyNames.foldl (New.step h options) []

/-- What `Datasource::New` leaves behind: a constructed datasource, a thrown
error, or an object that was never wrapped (the factory returned null). -/
inductive NewResult (DS : Type) where
  | constructed (d : Datasource DS)
  | threw (e : JSError)
  | unwrapped

/-- The rest of `Datasource::New` once the factory has answered (lines
110-142): its exception is rethrown to JavaScript, a handle is wrapped with its
kind, and a null handle leaves the object unwrapped. -/
def New.wrap {DS : Type} (type : DS → datasource_t) :
    Except String (Option DS) → NewResult DS
  | Except.error what => NewResult.threw (JSError.Error what)
  | Except.ok (some ds) =>
    if type ds = datasource_t.Raster then
      NewResult.constructed { datasource_ := ds, type := "raster" }
    else
      NewResult.constructed { datasource_ := ds, type := "vector" }
  | Except.ok none => NewResult.unwrapped

/-- The constructor `Datasource::New`, called from JavaScript (the branch for
an `External` argument is taken only by `NewInstance` in C++). The factory
`mapnik::datasource_cache::instance().create` and the accessor `type()` of the
handle it returns are parameters. -/
def New {DS : Type} (h : Host) (create : parameters → Except String (Option DS))
    (type : DS → datasource_t) (IsConstructCall : Bool) (info : List JSValue) :
    NewResult DS :=
  if !IsConstructCall then
    NewResult.threw
      (JSError.Error "Cannot call constructor as function, you need to use 'new' keyword")
  else if info.length != 1 then
    NewResult.threw
      (JSError.TypeError "accepts only one argument, an object of key:value datasource options")
  else if !(arg info 0).IsObject then
    NewResult.threw
      (JSError.TypeError "Must provide an object, eg \x7btype: 'shape', file : 'world.shp'\x7d")
  else
    let options := asObject (arg info 0)
    New.wrap type (create (New.params h options))

end Datasource

/-! ## Definitions used to state the properties -/

/-- An assignment that happens only when there is a value to assign. -/
def assignOption {α : Type} (key : String) (val : Option α) (m : List (String × α)) :
    List (String × α) :=
  match val with
  | some v => assign key v m
  | none => m

/-- In the words of the spec: the record has the key and its value is a
number. -/
def presentNumber (record : JSObject) (key : String) : Bool :=
  match record.lookup key with
  | some (JSValue.number _) => true
  | _ => false

/-- In the words of the spec: the record has the key. -/
def hasKey (record : JSObject) (key : String) : Prop :=
  key ∈ record.map Prod.fst

instance (record : JSObject) (key : String) : Decidable (hasKey record key) := by
  unfold hasKey; infer_instance

/-- In the words of the spec: the record of a call that `add` accepts, that is
a call with exactly one argument, an object without `wkt` whose `x` and `y` are
both present and both numbers. -/
def acceptedRecord (info : List JSValue) : Option JSObject :=
  match info with
  | [JSValue.object record] =>
    if ¬ hasKey record "wkt" ∧ presentNumber record "x" = true ∧
        presentNumber record "y" = true then some record
    else none
  | _ => none

/-- The value that one turn of the loop of `MemoryDatasource::New` stores. -/
def memoryValue (h : Host) (value : JSValue) : value_holder :=
  if value.IsUint32 || value.IsInt32 then value_holder.integer value.IntegerValue
  else if value.IsNumber then value_holder.double value.NumberValue
  else if value.IsBoolean then value_holder.boolean value.BooleanValue
  else value_holder.string (TOSTR h value)

/-- In the words of the spec, as amended: the parameter value for a supplied
value in the Memory variant. An integral number from -2^31 to 2^32 - 1 other
than negative zero gives an Integer, any other number a Double, a boolean a
Boolean, and anything else its string conversion. -/
def specMemoryValue (h : Host) : JSValue → value_holder
  | JSValue.number (JSNumber.finite q) =>
    if q.den = 1 ∧ -(2 : Int) ^ 31 ≤ q.num ∧ q.num ≤ 2 ^ 32 - 1 then value_holder.integer q.num
    else value_holder.double (JSNumber.finite q)
  | JSValue.number n => value_holder.double n
  | JSValue.boolean b => value_holder.boolean b
  | v => value_holder.string (TOSTR h v)

/-- In the words of the spec: the parameter value for a supplied value in the
Memory variant. Every integral number gives an Integer, a non-integral number a
Double, a boolean a Boolean, and anything else its string conversion. -/
def claimedMemoryValue (h : Host) : JSValue → value_holder
  | JSValue.number (JSNumber.finite q) =>
    if q.den = 1 then value_holder.integer q.num else value_holder.double (JSNumber.finite q)
  | JSValue.number JSNumber.negZero => value_holder.integer 0
  | JSValue.number n => value_holder.double n
  | JSValue.boolean b => value_holder.boolean b
  | v => value_holder.string (TOSTR h v)

/-- A host for the examples: every non-string value converts to the empty
string and the transcoder keeps the text. -/
def exampleHost : Host where
  ToString := fun _ => ""
  transcode := fun _ s => s

/-- A backend with two fields that answers every query with a cursor holding
the query it was given. -/
def echoBackend : datasource query query where
  type := datasource_t.Vector
  envelope := Except.ok ⟨JSNumber.finite 0, JSNumber.finite 1, JSNumber.finite 2,
    JSNumber.finite 3⟩
  get_descriptor := Except.ok [⟨"name", 0⟩, ⟨"area", 1⟩]
  features := fun q => Except.ok (some q)

/-- A backend whose query execution yields no cursor: `features` returns a null
pointer. -/
def nullCursorBackend : datasource query Unit where
  type := datasource_t.Vector
  envelope := Except.ok ⟨JSNumber.finite 0, JSNumber.finite 0, JSNumber.finite 1,
    JSNumber.finite 1⟩
  get_descriptor := Except.ok []
  features := fun _ => Except.ok none

/-- A rational that a double can hold: an integer of magnitude below 2^53
times a power of two. -/
def IsDouble (q : ℚ) : Prop :=
  ∃ m e : Int, m.natAbs < 2 ^ 53 ∧ q = (m : ℚ) * (2 : ℚ) ^ e

/-- The attribute value that one turn of the loop of `MemoryDatasource::add`
stores for a property value, if it stores one (lines 220-234). -/
def propertyValue (h : Host) (tr_ : transcoder) (value : JSValue) : Option mapnik.value :=
  if value.IsString then
    some (mapnik.value.unicode_string (h.transcode tr_.encoding (TOSTR h value)))
  else if value.IsNumber then
    if value.NumberValue.eqInt64 value.IntegerValue then
      some (mapnik.value.integer value.IntegerValue)
    else some (mapnik.value.double value.NumberValue)
  else if value.IsNull then some mapnik.value.null
  else none

/-- In the words of the spec, as amended: the attribute for a property value.
A string gives a String; a number equal to its own truncation to integer and
inside the signed 64-bit range gives an Integer of that value; any other
number gives a Double; null gives Null; a value of any other type gives no
attribute. -/
def specProperty (h : Host) (tr_ : transcoder) : JSValue → Option mapnik.value
  | JSValue.string s => some (mapnik.value.unicode_string (h.transcode tr_.encoding s))
  | JSValue.number (JSNumber.finite q) =>
    if q.den = 1 ∧ -(2 : Int) ^ 63 ≤ q.num ∧ q.num < 2 ^ 63 then
      some (mapnik.value.integer q.num)
    else some (mapnik.value.double (JSNumber.finite q))
  | JSValue.number JSNumber.negZero => some (mapnik.value.integer 0)
  | JSValue.number n => some (mapnik.value.double n)
  | JSValue.null => some mapnik.value.null
  | _ => none

/-- In the words of the spec: the attribute for a property value. A string
gives a String; a number equal to its own truncation to integer gives an
Integer of that value; any other number gives a Double; null gives Null; a
value of any other type gives no attribute. -/
def claimedProperty (h : Host) (tr_ : transcoder) : JSValue → Option mapnik.value
  | JSValue.string s => some (mapnik.value.unicode_string (h.transcode tr_.encoding s))
  | JSValue.number (JSNumber.finite q) =>
    if q.den = 1 then some (mapnik.value.integer q.num)
    else some (mapnik.value.double (JSNumber.finite q))
  | JSValue.number JSNumber.negZero => some (mapnik.value.integer 0)
  | JSValue.number n => some (mapnik.value.double n)
  | JSValue.null => some mapnik.value.null
  | _ => none

/-- A freshly constructed Memory Datasource. -/
def exampleStore : MemoryDatasource :=
  { datasource_ := memory_datasource.create [("type", value_holder.string "memory")]
    feature_id_ := 1
    tr_ := { encoding := "utf8" } }

/-- The properties `{a: "s", b: 3, c: 3.5, d: null, e: true}`. -/
def exampleProperties : JSObject :=
  [("a", JSValue.string "s"), ("b", JSValue.number (JSNumber.finite 3)),
   ("c", JSValue.number (JSNumber.finite (mkRat 7 2))), ("d", JSValue.null),
   ("e", JSValue.boolean true)]

/-- The record `{x: 0, y: 0, properties: {a: "s", b: 3, c: 3.5, d: null,
e: true}}`. -/
def exampleRecord : JSObject :=
  [("x", JSValue.number (JSNumber.finite 0)), ("y", JSValue.number (JSNumber.finite 0)),
   ("properties", JSValue.object exampleProperties)]

/-- The properties `{a: "s", b: 3, c: 3.5, d: null, e: true, f: 2^63}`. -/
def edgeProperties : JSObject :=
  [("a", JSValue.string "s"), ("b", JSValue.number (JSNumber.finite 3)),
   ("c", JSValue.number (JSNumber.finite (mkRat 7 2))), ("d", JSValue.null),
   ("e", JSValue.boolean true),
   ("f", JSValue.number (JSNumber.finite 9223372036854775808))]

/-- The record `{x: 0, y: 0, properties: {a: "s", b: 3, c: 3.5, d: null,
e: true, f: 2^63}}`. -/
def edgeRecord : JSObject :=
  [("x", JSValue.number (JSNumber.finite 0)), ("y", JSValue.number (JSNumber.finite 0)),
   ("properties", JSValue.object edgeProperties)]

/-! ## Keyed containers -/

section Assign

variable {α : Type}

theorem lookup_cons_self (k : String) (v : α) (l : List (String × α)) :
    ((k, v) :: l).lookup k = some v := by
  simp [List.lookup]

theorem lookup_cons_ne {k k' : String} (hne : k' ≠ k) (v : α) (l : List (String × α)) :
    ((k, v) :: l).lookup k' = l.lookup k' := by
  have hb : (k' == k) = false := by simpa using hne
  simp [List.lookup, hb]

theorem lookup_assign_self (k : String) (v : α) (l : List (String × α)) :
    (assign k v l).lookup k = some v := by
  induction l with
  | nil => simp [assign, List.lookup]
  | cons p rest ih =>
    obtain ⟨k0, v0⟩ := p
    by_cases hk : k0 = k
    · simp [assign, hk, List.lookup]
    · have hne : k ≠ k0 := fun e => hk e.symm
      simp only [assign, hk, if_false]
      rw [lookup_cons_ne hne, ih]

theorem lookup_assign_ne {k k' : String} (hne : k' ≠ k) (v : α) (l : List (String × α)) :
    (assign k v l).lookup k' = l.lookup k' := by
  induction l with
  | nil => simp only [assign]; rw [lookup_cons_ne hne]
  | cons p rest ih =>
    obtain ⟨k0, v0⟩ := p
    by_cases hk : k0 = k
    · subst hk
      simp only [assign, if_true]
      rw [lookup_cons_ne hne, lookup_cons_ne hne]
    · simp only [assign, hk, if_false]
      by_cases hk' : k' = k0
      · subst hk'; rw [lookup_cons_self, lookup_cons_self]
      · rw [lookup_cons_ne hk', lookup_cons_ne hk', ih]

theorem lookup_assign (k k' : String) (v : α) (l : List (String × α)) :
    (assign k v l).lookup k' = if k' = k then some v else l.lookup k' := by
  by_cases hk : k' = k
  · subst hk; simp [lookup_assign_self]
  · simp [hk, lookup_assign_ne hk]

theorem mem_keys_iff_lookup (k : String) (l : List (String × α)) :
    k ∈ l.map Prod.fst ↔ (l.lookup k).isSome = true := by
  induction l with
  | nil => simp [List.lookup]
  | cons p rest ih =>
    obtain ⟨k0, v0⟩ := p
    by_cases hk : k = k0
    · subst hk; simp [lookup_cons_self]
    · rw [lookup_cons_ne hk, ← ih]; simp [hk]

theorem mem_keys_assign (k k' : String) (v : α) (l : List (String × α)) :
    k' ∈ (assign k v l).map Prod.fst ↔ k' = k ∨ k' ∈ l.map Prod.fst := by
  rw [mem_keys_iff_lookup, mem_keys_iff_lookup, lookup_assign]
  by_cases hk : k' = k <;> simp [hk]

theorem nodup_keys_assign (k : String) (v : α) (l : List (String × α))
    (hl : (l.map Prod.fst).Nodup) : ((assign k v l).map Prod.fst).Nodup := by
  induction l with
  | nil => simp [assign]
  | cons p rest ih =>
    obtain ⟨k0, v0⟩ := p
    simp only [List.map_cons, List.nodup_cons] at hl
    by_cases hk : k0 = k
    · subst hk
      simp only [assign, if_true, List.map_cons, List.nodup_cons]
      exact hl
    · simp only [assign, hk, if_false, List.map_cons, List.nodup_cons]
      refine ⟨?_, ih hl.2⟩
      rw [mem_keys_assign]
      rintro (h1 | h1)
      · exact hk h1
      · exact hl.1 h1

/-- Lookup in a container filled by one assignment per name. -/
theorem lookup_foldl_assign (f : String → α) (names : List String) (m : List (String × α))
    (k : String) :
    (names.foldl (fun acc n => assign n (f n) acc) m).lookup k =
      if k ∈ names then some (f k) else m.lookup k := by
  induction names generalizing m with
  | nil => simp
  | cons n rest ih =>
    rw [List.foldl_cons, ih, lookup_assign]
    by_cases h1 : k ∈ rest
    · simp [h1]
    · by_cases h2 : k = n
      · subst h2; simp [h1]
      · simp [h1, h2]

theorem nodup_keys_foldl_assign (f : String → α) (names : List String)
    (m : List (String × α)) (hm : (m.map Prod.fst).Nodup) :
    ((names.foldl (fun acc n => assign n (f n) acc) m).map Prod.fst).Nodup := by
  induction names generalizing m with
  | nil => simpa using hm
  | cons n rest ih =>
    rw [List.foldl_cons]
    exact ih _ (nodup_keys_assign _ _ _ hm)

/-- Lookup in a container filled by one optional assignment per name. -/
theorem lookup_foldl_assign_opt (g : String → Option α) (names : List String)
    (m : List (String × α)) (k : String) :
    (names.foldl (fun acc n => assignOption n (g n) acc) m).lookup k =
      if k ∈ names then (g k).orElse (fun _ => m.lookup k) else m.lookup k := by
  induction names generalizing m with
  | nil => simp
  | cons n rest ih =>
    rw [List.foldl_cons, ih]
    by_cases h2 : k = n
    · subst h2
      cases hg : g k with
      | none => simp [assignOption]
      | some v => simp [assignOption, lookup_assign_self]
    · have h3 : (assignOption n (g n) m).lookup k = m.lookup k := by
        unfold assignOption
        cases g n with
        | none => rfl
        | some v => exact lookup_assign_ne h2 v m
      rw [h3]
      simp [h2]

end Assign

/-! ## `MemoryDatasource::add`: outcome and state -/

theorem presentNumber_eq (record : JSObject) (key : String) :
    presentNumber record key =
      (!(record.Get key).IsUndefined && (record.Get key).IsNumber) := by
  unfold presentNumber JSObject.Get
  cases hl : record.lookup key with
  | none => rfl
  | some v => cases v <;> rfl

theorem presentNumber_has (record : JSObject) (key : String)
    (hp : presentNumber record key = true) : record.Has key = true := by
  unfold presentNumber at hp
  unfold JSObject.Has
  cases hl : record.lookup key with
  | none => rw [hl] at hp; cases hp
  | some v => rfl

/-- The outcome and final state of `add` on one object argument. -/
theorem add_object (h : Host) (d : MemoryDatasource) (record : JSObject) :
    MemoryDatasource.add h d [JSValue.object record] =
      if record.Has "wkt" then
        (Completion.threw (JSError.Error "wkt not yet supported"), d)
      else if presentNumber record "x" && presentNumber record "y" then
        (Completion.returned true,
         { d with
           feature_id_ := d.feature_id_ + 1
           datasource_ := d.datasource_.push
             (MemoryDatasource.add.feature h d.tr_ d.feature_id_ record) })
      else (Completion.returned false, d) := by
  have hx := presentNumber_eq record "x"
  have hy := presentNumber_eq record "y"
  have hhx := presentNumber_has record "x"
  have hhy := presentNumber_has record "y"
  unfold MemoryDatasource.add
  simp only [List.length_singleton, arg, List.getD_cons_zero, JSValue.IsObject, asObject]
  cases hw : record.Has "wkt" <;> cases hpx : presentNumber record "x" <;>
    cases hpy : presentNumber record "y" <;>
    cases hhasx : record.Has "x" <;> cases hhasy : record.Has "y" <;>
    simp_all

theorem has_iff_hasKey (record : JSObject) (key : String) :
    record.Has key = true ↔ hasKey record key := by
  unfold JSObject.Has hasKey
  exact (mem_keys_iff_lookup key record).symm

theorem add_step_id (h : Host) (tr_ : transcoder) (p_obj : JSObject) (f : feature_impl)
    (name : String) :
    (MemoryDatasource.add.step h tr_ p_obj f name).id = f.id ∧
      (MemoryDatasource.add.step h tr_ p_obj f name).geom = f.geom := by
  unfold MemoryDatasource.add.step
  simp only [feature_impl.put_new]
  split_ifs <;> exact ⟨rfl, rfl⟩

theorem add_loop_id (h : Host) (tr_ : transcoder) (p_obj : JSObject) (names : List String)
    (f : feature_impl) :
    (names.foldl (MemoryDatasource.add.step h tr_ p_obj) f).id = f.id ∧
      (names.foldl (MemoryDatasource.add.step h tr_ p_obj) f).geom = f.geom := by
  induction names generalizing f with
  | nil => exact ⟨rfl, rfl⟩
  | cons n rest ih =>
    rw [List.foldl_cons]
    have h1 := ih (MemoryDatasource.add.step h tr_ p_obj f n)
    have h2 := add_step_id h tr_ p_obj f n
    exact ⟨h1.1.trans h2.1, h1.2.trans h2.2⟩

theorem add_feature_id (h : Host) (tr_ : transcoder) (fid : Nat) (record : JSObject) :
    (MemoryDatasource.add.feature h tr_ fid record).id = fid ∧
      (MemoryDatasource.add.feature h tr_ fid record).geom =
        geometry.point (record.Get "x").NumberValue (record.Get "y").NumberValue := by
  unfold MemoryDatasource.add.feature
  simp only
  split_ifs
  · exact add_loop_id h tr_ _ _ _
  · exact ⟨rfl, rfl⟩
  · exact ⟨rfl, rfl⟩

theorem get_of_lookup {record : JSObject} {key : String} {v : JSValue}
    (hl : record.lookup key = some v) : record.Get key = v := by
  unfold JSObject.Get; rw [hl]

theorem presentNumber_of_lookup {record : JSObject} {key : String} {n : JSNumber}
    (hl : record.lookup key = some (JSValue.number n)) : presentNumber record key = true := by
  unfold presentNumber; rw [hl]

/-- C1: on a single object argument, `add` raises exactly when the record has a
`wkt` key (whatever `x` and `y` are); it returns true exactly when there is no
`wkt` key and `x` and `y` are both present and both numbers; and it returns
false, without raising, exactly in the remaining case. -/
theorem add_outcome (h : Host) (d : MemoryDatasource) (record : JSObject) :
    ((∃ e, (MemoryDatasource.add h d [JSValue.object record]).1 = Completion.threw e) ↔
        hasKey record "wkt") ∧
    ((MemoryDatasource.add h d [JSValue.object record]).1 = Completion.returned true ↔
        (¬ hasKey record "wkt" ∧
          presentNumber record "x" = true ∧ presentNumber record "y" = true)) ∧
    ((MemoryDatasource.add h d [JSValue.object record]).1 = Completion.returned false ↔
        (¬ hasKey record "wkt" ∧
          ¬ (presentNumber record "x" = true ∧ presentNumber record "y" = true))) := by
  rw [add_object, ← has_iff_hasKey]
  cases hw : record.Has "wkt" <;> cases hpx : presentNumber record "x" <;>
    cases hpy : presentNumber record "y" <;> simp

/-- C2: on a record without `wkt` whose `x` and `y` are numbers, `add` returns
true, appends exactly one feature to the end of the store, leaving the earlier
features as they were; the new feature has the identity held by the counter and
a point geometry at exactly (x, y); and the counter goes up by one. -/
theorem add_accepts (h : Host) (d : MemoryDatasource) (record : JSObject)
    (x y : JSNumber) (hwkt : ¬ hasKey record "wkt")
    (hx : record.lookup "x" = some (JSValue.number x))
    (hy : record.lookup "y" = some (JSValue.number y)) :
    (MemoryDatasource.add h d [JSValue.object record]).1 = Completion.returned true ∧
    (∃ f : feature_impl,
      (MemoryDatasource.add h d [JSValue.object record]).2.datasource_.features_ =
          d.datasource_.features_ ++ [f] ∧
        f.id = d.feature_id_ ∧ f.geom = geometry.point x y) ∧
    (MemoryDatasource.add h d [JSValue.object record]).2.feature_id_ = d.feature_id_ + 1 := by
  have hw : record.Has "wkt" = false := by
    rw [← Bool.not_eq_true, has_iff_hasKey]; exact hwkt
  rw [add_object, hw, presentNumber_of_lookup hx, presentNumber_of_lookup hy]
  refine ⟨rfl, ⟨_, rfl, ?_⟩, rfl⟩
  have hf := add_feature_id h d.tr_ d.feature_id_ record
  rw [get_of_lookup hx, get_of_lookup hy] at hf
  exact hf

theorem add_accepts_witness :
    (MemoryDatasource.add ⟨fun _ => "", fun _ s => s⟩
        ⟨memory_datasource.create [], 1, ⟨"utf8"⟩⟩
        [JSValue.object [("x", JSValue.number (JSNumber.finite 1)),
          ("y", JSValue.number (JSNumber.finite 2))]]).1 = Completion.returned true ∧
    (∃ f : feature_impl,
      (MemoryDatasource.add ⟨fun _ => "", fun _ s => s⟩
        ⟨memory_datasource.create [], 1, ⟨"utf8"⟩⟩
        [JSValue.object [("x", JSValue.number (JSNumber.finite 1)),
          ("y", JSValue.number (JSNumber.finite 2))]]).2.datasource_.features_ =
          (memory_datasource.create []).features_ ++ [f] ∧
        f.id = 1 ∧ f.geom = geometry.point (JSNumber.finite 1) (JSNumber.finite 2)) ∧
    (MemoryDatasource.add ⟨fun _ => "", fun _ s => s⟩
        ⟨memory_datasource.create [], 1, ⟨"utf8"⟩⟩
        [JSValue.object [("x", JSValue.number (JSNumber.finite 1)),
          ("y", JSValue.number (JSNumber.finite 2))]]).2.feature_id_ = 1 + 1 :=
  add_accepts ⟨fun _ => "", fun _ s => s⟩ ⟨memory_datasource.create [], 1, ⟨"utf8"⟩⟩
    [("x", JSValue.number (JSNumber.finite 1)), ("y", JSValue.number (JSNumber.finite 2))]
    (JSNumber.finite 1) (JSNumber.finite 2) (by decide) rfl rfl

/-- The outcome of `add` when the call shape is wrong. -/
theorem add_bad_shape (h : Host) (d : MemoryDatasource) (info : List JSValue)
    (hshape : ∀ record, info ≠ [JSValue.object record]) :
    MemoryDatasource.add h d info =
      (Completion.threw (JSError.Error
        "accepts one argument: an object including x and y (or wkt) and properties"), d) := by
  unfold MemoryDatasource.add
  have hc : (info.length != 1 || !(arg info 0).IsObject) = true := by
    match info, hshape with
    | [], _ => rfl
    | [v], hs =>
      cases v with
      | object props => exact absurd rfl (hs props)
      | _ => rfl
    | _ :: _ :: _, _ => rfl
  rw [if_pos hc]

/-- C4: a call of `add` that does not return true (it returns false, or raises
because of `wkt`, or raises because the arguments are not exactly one object)
leaves the identity counter and the stored features as they were. -/
theorem add_rejects_keeps_state (h : Host) (d : MemoryDatasource) (info : List JSValue)
    (hnot : (MemoryDatasource.add h d info).1 ≠ Completion.returned true) :
    (MemoryDatasource.add h d info).2.feature_id_ = d.feature_id_ ∧
      (MemoryDatasource.add h d info).2.datasource_.features_ = d.datasource_.features_ := by
  by_cases hshape : ∃ record, info = [JSValue.object record]
  · obtain ⟨record, rfl⟩ := hshape
    rw [add_object] at hnot ⊢
    split_ifs at hnot ⊢
    · exact ⟨rfl, rfl⟩
    · exact absurd rfl hnot
    · exact ⟨rfl, rfl⟩
  · rw [add_bad_shape h d info (fun record e => hshape ⟨record, e⟩)]
    exact ⟨rfl, rfl⟩

theorem add_rejects_keeps_state_witness :
    (MemoryDatasource.add ⟨fun _ => "", fun _ s => s⟩
        ⟨memory_datasource.create [], 5, ⟨"utf8"⟩⟩ [JSValue.object []]).2.feature_id_ = 5 ∧
      (MemoryDatasource.add ⟨fun _ => "", fun _ s => s⟩
        ⟨memory_datasource.create [], 5, ⟨"utf8"⟩⟩
        [JSValue.object []]).2.datasource_.features_ = (memory_datasource.create []).features_ :=
  add_rejects_keeps_state ⟨fun _ => "", fun _ s => s⟩
    ⟨memory_datasource.create [], 5, ⟨"utf8"⟩⟩ [JSValue.object []] (by decide)

theorem add_of_accepted (h : Host) (d : MemoryDatasource) (info : List JSValue)
    (record : JSObject) (ha : acceptedRecord info = some record) :
    MemoryDatasource.add h d info =
      (Completion.returned true,
       { d with
         feature_id_ := d.feature_id_ + 1
         datasource_ := d.datasource_.push
           (MemoryDatasource.add.feature h d.tr_ d.feature_id_ record) }) := by
  match info, ha with
  | [JSValue.object r], ha =>
    simp only [acceptedRecord] at ha
    split_ifs at ha with hc
    cases ha
    have hw : JSObject.Has record "wkt" = false := by
      rw [← Bool.not_eq_true, has_iff_hasKey]; exact hc.1
    rw [add_object, hw, hc.2.1, hc.2.2]
    rfl

theorem add_of_not_accepted (h : Host) (d : MemoryDatasource) (info : List JSValue)
    (ha : acceptedRecord info = none) :
    (MemoryDatasource.add h d info).1 ≠ Completion.returned true ∧
      (MemoryDatasource.add h d info).2 = d := by
  by_cases hshape : ∃ record, info = [JSValue.object record]
  · obtain ⟨record, rfl⟩ := hshape
    simp only [acceptedRecord] at ha
    split_ifs at ha with hc
    rw [add_object]
    cases hw : JSObject.Has record "wkt"
    · have hnw : ¬ hasKey record "wkt" := by
        rw [← has_iff_hasKey, hw]; simp
      have hxy : (presentNumber record "x" && presentNumber record "y") = false := by
        cases hpx : presentNumber record "x" <;> cases hpy : presentNumber record "y" <;>
          simp_all
      simp [hxy]
    · simp
  · rw [add_bad_shape h d info (fun record e => hshape ⟨record, e⟩)]
    simp

/-- A sequence of `add` calls from any state: the accepted calls, in call
order, each append their feature, with consecutive identities starting at the
counter. -/
theorem addAll_spec (h : Host) (calls : List (List JSValue)) (d : MemoryDatasource) :
    ((MemoryDatasource.addAll h d calls).1.map (fun o => decide (o = Completion.returned true)) =
        calls.map (fun info => (acceptedRecord info).isSome)) ∧
    ((MemoryDatasource.addAll h d calls).1.count (Completion.returned true) =
        (calls.filterMap acceptedRecord).length) ∧
    (MemoryDatasource.addAll h d calls).2.feature_id_ =
        d.feature_id_ + (calls.filterMap acceptedRecord).length ∧
    (MemoryDatasource.addAll h d calls).2.tr_ = d.tr_ ∧
    (MemoryDatasource.addAll h d calls).2.datasource_.features_ =
        d.datasource_.features_ ++
          List.zipWith (fun fid record => MemoryDatasource.add.feature h d.tr_ fid record)
            (List.range' d.feature_id_ (calls.filterMap acceptedRecord).length)
            (calls.filterMap acceptedRecord) := by
  induction calls generalizing d with
  | nil => simp [MemoryDatasource.addAll]
  | cons info rest ih =>
    simp only [MemoryDatasource.addAll]
    cases ha : acceptedRecord info with
    | none =>
      obtain ⟨h1, h2⟩ := add_of_not_accepted h d info ha
      have ih1 := ih (MemoryDatasource.add h d info).2
      rw [h2] at ih1 ⊢
      rw [List.filterMap_cons_none ha, List.count_cons_of_ne (Ne.symm h1)]
      refine ⟨?_, ih1.2⟩
      simp only [List.map_cons, ih1.1, ha, Option.isSome_none, decide_eq_false h1]
    | some record =>
      have h1 := add_of_accepted h d info record ha
      have ih1 := ih (MemoryDatasource.add h d info).2
      rw [h1] at ih1 ⊢
      rw [List.filterMap_cons_some ha, List.count_cons_self]
      simp only [List.length_cons, List.range'_succ, List.zipWith_cons_cons,
        memory_datasource.push] at ih1 ⊢
      obtain ⟨i0, i1, i2, i3, i4⟩ := ih1
      refine ⟨by simp [i0, ha], by rw [i1], by rw [i2]; omega, i3, ?_⟩
      rw [i4]
      simp

theorem zipWith_feature_ids (h : Host) (tr_ : transcoder) (records : List JSObject)
    (start : Nat) :
    (List.zipWith (fun fid record => MemoryDatasource.add.feature h tr_ fid record)
        (List.range' start records.length) records).map feature_impl.id =
      List.range' start records.length := by
  induction records generalizing start with
  | nil => rfl
  | cons r rest ih =>
    simp only [List.length_cons, List.range'_succ, List.zipWith_cons_cons, List.map_cons]
    rw [ih (start + 1), (add_feature_id h tr_ start r).1]

/-- C3: after any finite sequence of `add` calls on a freshly constructed
Memory Datasource, of which K return true, the stored features are exactly
those built for the K accepted calls, in call order, and their identities are
1, 2, ..., K. -/
theorem fresh_identities (h : Host) (options : JSObject) (calls : List (List JSValue)) :
    ∃ d0 : MemoryDatasource,
      MemoryDatasource.New h true [JSValue.object options] = Completion.returned d0 ∧
      d0.feature_id_ = 1 ∧ d0.datasource_.features_ = [] ∧
      (MemoryDatasource.addAll h d0 calls).1.map
          (fun o => decide (o = Completion.returned true)) =
        calls.map (fun info => (acceptedRecord info).isSome) ∧
      (calls.filterMap acceptedRecord).length =
        (MemoryDatasource.addAll h d0 calls).1.count (Completion.returned true) ∧
      (MemoryDatasource.addAll h d0 calls).2.datasource_.features_ =
        List.zipWith (fun fid record => MemoryDatasource.add.feature h d0.tr_ fid record)
          (List.range' 1 ((MemoryDatasource.addAll h d0 calls).1.count
            (Completion.returned true)))
          (calls.filterMap acceptedRecord) ∧
      (MemoryDatasource.addAll h d0 calls).2.datasource_.features_.map feature_impl.id =
        List.range' 1 ((MemoryDatasource.addAll h d0 calls).1.count
          (Completion.returned true)) := by
  refine ⟨_, rfl, rfl, rfl, ?_⟩
  obtain ⟨h0, h1, _, _, h4⟩ := addAll_spec h calls
    { datasource_ := memory_datasource.create (MemoryDatasource.New.params h options)
      feature_id_ := 1
      tr_ := { encoding := "utf8" } }
  simp only [asObject, arg, List.getD_cons_zero] at h0 h1 h4 ⊢
  rw [h1]
  refine ⟨h0, rfl, ?_, ?_⟩
  · rw [h4]; rfl
  · rw [h4]
    simp only [memory_datasource.create, List.nil_append]
    exact zipWith_feature_ids h _ _ 1

/-! ## Parameter bags -/

theorem memory_step_eq (h : Host) (options : JSObject) (params : parameters) (name : String) :
    MemoryDatasource.New.step h options params name =
      assign name (memoryValue h (options.Get name)) params := by
  unfold MemoryDatasource.New.step memoryValue
  simp only [TOSTR]
  split_ifs <;> rfl

theorem memory_loop_eq (h : Host) (options : JSObject) (names : List String)
    (params : parameters) :
    names.foldl (MemoryDatasource.New.step h options) params =
      names.foldl (fun acc n => assign n (memoryValue h (options.Get n)) acc) params := by
  congr 1
  funext acc n
  exact memory_step_eq h options acc n

theorem backed_loop_eq (h : Host) (options : JSObject) (names : List String)
    (params : parameters) :
    names.foldl (Datasource.New.step h options) params =
      names.foldl (fun acc n =>
        assign n (value_holder.string (TOSTR h (options.Get n))) acc) params := by
  congr 1

/-- Lookup in the parameters built by `MemoryDatasource::New`. -/
theorem memory_params_lookup (h : Host) (options : JSObject) (k : String) :
    (MemoryDatasource.New.params h options).lookup k =
      if k = "type" then some (value_holder.string "memory")
      else if hasKey options k then some (memoryValue h (options.Get k))
      else none := by
  unfold MemoryDatasource.New.params
  rw [lookup_assign, memory_loop_eq, lookup_foldl_assign]
  rfl

/-- Lookup in the parameters built by `Datasource::New`. -/
theorem backed_params_lookup (h : Host) (options : JSObject) (k : String) :
    (Datasource.New.params h options).lookup k =
      if hasKey options k then some (value_holder.string (TOSTR h (options.Get k)))
      else none := by
  unfold Datasource.New.params
  rw [backed_loop_eq, lookup_foldl_assign]
  rfl

/-- C7: the parameters handed to the memory store by the constructor map
`type` to the string "memory" whatever the options say about `type`; their keys
are exactly the keys of the options object plus `type`; and no key appears
twice. -/
theorem memory_params_type (h : Host) (options : JSObject) :
    ∃ d : MemoryDatasource,
      MemoryDatasource.New h true [JSValue.object options] = Completion.returned d ∧
      d.datasource_.params.lookup "type" = some (value_holder.string "memory") ∧
      (∀ k : String, k ∈ d.datasource_.params.map Prod.fst ↔ (hasKey options k ∨ k = "type")) ∧
      (d.datasource_.params.map Prod.fst).Nodup := by
  refine ⟨_, rfl, ?_, ?_, ?_⟩
  · exact lookup_assign_self _ _ _
  · intro k
    show k ∈ (MemoryDatasource.New.params h options).map Prod.fst ↔ _
    rw [mem_keys_iff_lookup, memory_params_lookup]
    by_cases h1 : k = "type"
    · simp [h1]
    · by_cases h2 : hasKey options k <;> simp [h1, h2]
  · show ((MemoryDatasource.New.params h options).map Prod.fst).Nodup
    unfold MemoryDatasource.New.params
    apply nodup_keys_assign
    rw [memory_loop_eq]
    exact nodup_keys_foldl_assign _ _ _ (by simp)

/-- C8: the parameters that the Backed constructor passes to the backend
factory have exactly the keys of the options object, each once, and under each
key the string conversion of the supplied value, whatever its type; so a value
that is a string is passed as that same string. -/
theorem backed_params_strings {DS : Type} (h : Host)
    (create : parameters → Except String (Option DS)) (type : DS → datasource_t)
    (options : JSObject) :
    Datasource.New h create type true [JSValue.object options] =
        Datasource.New.wrap type (create (Datasource.New.params h options)) ∧
    (∀ k : String, k ∈ (Datasource.New.params h options).map Prod.fst ↔ hasKey options k) ∧
    ((Datasource.New.params h options).map Prod.fst).Nodup ∧
    (∀ k : String, ∀ v : JSValue, options.lookup k = some v →
      (Datasource.New.params h options).lookup k = some (value_holder.string (TOSTR h v))) ∧
    (∀ k : String, ∀ s : String, options.lookup k = some (JSValue.string s) →
      (Datasource.New.params h options).lookup k = some (value_holder.string s)) := by
  have hval : ∀ k : String, ∀ v : JSValue, options.lookup k = some v →
      (Datasource.New.params h options).lookup k =
        some (value_holder.string (TOSTR h v)) := by
    intro k v hl
    have hk : hasKey options k := by
      rw [← has_iff_hasKey]; unfold JSObject.Has; rw [hl]; rfl
    rw [backed_params_lookup, if_pos hk, get_of_lookup hl]
  refine ⟨rfl, ?_, ?_, hval, ?_⟩
  · intro k
    rw [mem_keys_iff_lookup, backed_params_lookup]
    by_cases h2 : hasKey options k <;> simp [h2]
  · unfold Datasource.New.params
    rw [backed_loop_eq]
    exact nodup_keys_foldl_assign _ _ _ (by simp)
  · intro k s hl
    exact hval k _ hl

/-! ## Numbers -/

theorem trunc_of_den_one (q : ℚ) (hden : q.den = 1) : JSNumber.trunc q = q.num := by
  unfold JSNumber.trunc
  rw [hden]
  split_ifs <;> simp

theorem cast_num_of_den_one (q : ℚ) (hden : q.den = 1) : ((q.num : Int) : ℚ) = q :=
  Rat.coe_int_num_of_den_eq_one hden

/-- On an integral value inside the signed 64-bit range `IntegerValue` is the
value itself. -/
theorem IntegerValue_of_integral (q : ℚ) (hden : q.den = 1)
    (hlo : -(2 : Int) ^ 63 < q.num) (hhi : q.num < 2 ^ 63) :
    JSNumber.IntegerValue (JSNumber.finite q) = q.num := by
  have hq := cast_num_of_den_one q hden
  have h1 : ¬ ((2 : ℚ) ^ 63 ≤ q) := by
    rw [← hq]; intro hc
    have : (2 : Int) ^ 63 ≤ q.num := by exact_mod_cast hc
    omega
  have h2 : ¬ (q ≤ -(2 : ℚ) ^ 63) := by
    rw [← hq]; intro hc
    have : q.num ≤ -(2 : Int) ^ 63 := by exact_mod_cast hc
    omega
  unfold JSNumber.IntegerValue
  simp only [h1, h2, if_false]
  exact trunc_of_den_one q hden

theorem memoryValue_eq_spec (h : Host) (v : JSValue) :
    memoryValue h v = specMemoryValue h v := by
  cases v with
  | number n =>
    cases n with
    | finite q =>
      have hiff : ((JSValue.number (JSNumber.finite q)).IsUint32 ||
          (JSValue.number (JSNumber.finite q)).IsInt32) = true ↔
          (q.den = 1 ∧ -(2 : Int) ^ 31 ≤ q.num ∧ q.num ≤ 2 ^ 32 - 1) := by
        simp only [JSValue.IsUint32, JSValue.IsInt32, JSNumber.IsUint32, JSNumber.IsInt32,
          Bool.or_eq_true, decide_eq_true_eq]
        constructor
        · rintro (⟨h0, h1, h2⟩ | ⟨h0, h1, h2⟩)
          · exact ⟨h0, by omega, h2⟩
          · exact ⟨h0, h1, by omega⟩
        · rintro ⟨h0, h1, h2⟩
          by_cases hs : 0 ≤ q.num
          · exact Or.inl ⟨h0, hs, h2⟩
          · exact Or.inr ⟨h0, h1, by omega⟩
      unfold memoryValue specMemoryValue
      by_cases hc : q.den = 1 ∧ -(2 : Int) ^ 31 ≤ q.num ∧ q.num ≤ 2 ^ 32 - 1
      · rw [if_pos (hiff.2 hc)]
        show _ = (if q.den = 1 ∧ -(2 : Int) ^ 31 ≤ q.num ∧ q.num ≤ 2 ^ 32 - 1 then
          value_holder.integer q.num else value_holder.double (JSNumber.finite q))
        rw [if_pos hc]
        simp only [JSValue.IntegerValue]
        rw [IntegerValue_of_integral q hc.1 (by omega) (by omega)]
      · rw [if_neg (fun hh => hc (hiff.1 hh))]
        show _ = (if q.den = 1 ∧ -(2 : Int) ^ 31 ≤ q.num ∧ q.num ≤ 2 ^ 32 - 1 then
          value_holder.integer q.num else value_holder.double (JSNumber.finite q))
        rw [if_neg hc]
        rfl
    | _ => rfl
  | _ => rfl

/-- C6, counterexample: the options object `{a: 4294967296}` holds an integral
number outside the 32-bit ranges, and the constructor stores it as a Double,
not as the Integer that the claim asks for. -/
theorem memory_params_large_integer :
    (4294967296 : ℚ).den = 1 ∧
    (MemoryDatasource.New.params exampleHost
        [("a", JSValue.number (JSNumber.finite 4294967296))]).lookup "a" =
      some (value_holder.double (JSNumber.finite 4294967296)) ∧
    (MemoryDatasource.New.params exampleHost
        [("a", JSValue.number (JSNumber.finite 4294967296))]).lookup "a" ≠
      some (claimedMemoryValue exampleHost (JSValue.number (JSNumber.finite 4294967296))) := by
  decide

/-- C6, amended: for every key of the options object other than `type`, the
parameter value is an Integer when the supplied value is an integral number
from -2^31 to 2^32 - 1 other than negative zero, a Double when it is any other
number, a Boolean when it is a boolean, and otherwise the string conversion of
the value. -/
theorem memory_params_values (h : Host) (options : JSObject) (k : String) (v : JSValue)
    (hk : k ≠ "type") (hv : options.lookup k = some v) :
    (MemoryDatasource.New.params h options).lookup k = some (specMemoryValue h v) := by
  have hkey : hasKey options k := by
    rw [← has_iff_hasKey]; unfold JSObject.Has; rw [hv]; rfl
  rw [memory_params_lookup, if_neg hk, if_pos hkey, get_of_lookup hv, memoryValue_eq_spec]

theorem memory_params_values_witness :
    (MemoryDatasource.New.params exampleHost
        [("n", JSValue.number (JSNumber.finite 7)), ("type", JSValue.string "csv")]).lookup "n" =
      some (specMemoryValue exampleHost (JSValue.number (JSNumber.finite 7))) :=
  memory_params_values exampleHost
    [("n", JSValue.number (JSNumber.finite 7)), ("type", JSValue.string "csv")] "n"
    (JSValue.number (JSNumber.finite 7)) (by decide) rfl

/-! ## `featureset` -/

theorem runQuery_ok {Q FS : Type} (ops : QueryOps Q) (ds : datasource Q FS) (e : box2d)
    (desc : List attribute_descriptor) (he : ds.envelope = Except.ok e)
    (hd : ds.get_descriptor = Except.ok desc) :
    runQuery ops ds = ds.features (buildQuery ops e desc) := by
  unfold runQuery
  rw [he, hd]

theorem buildQuery_spec_aux (desc : List attribute_descriptor) (q : query) :
    desc.foldl (fun q itr => query.ops.add_property_name q itr.get_name) q =
      { bbox := q.bbox, names := q.names ++ desc.map attribute_descriptor.get_name } := by
  induction desc generalizing q with
  | nil => simp
  | cons a rest ih =>
    rw [List.foldl_cons, ih]
    simp [query.ops]

/-- The query built with the spec-level query operations. -/
theorem buildQuery_spec (e : box2d) (desc : List attribute_descriptor) :
    buildQuery query.ops e desc =
      { bbox := e, names := desc.map attribute_descriptor.get_name } := by
  unfold buildQuery
  rw [buildQuery_spec_aux]
  simp [query.ops]

/-- C9: when the backend gives its envelope and its descriptor, both
`featureset` methods hand to the backend one and the same query, built from the
envelope by requesting the name of each field of the descriptor in descriptor
order, and what they return is decided by the backend's answer to that query;
with the query of the spec the extent is exactly the envelope and the requested
names are exactly the field names in descriptor order. -/
theorem featureset_query {Q FS : Type} (ops : QueryOps Q) (ds : datasource Q FS) (e : box2d)
    (desc : List attribute_descriptor) (he : ds.envelope = Except.ok e)
    (hd : ds.get_descriptor = Except.ok desc) :
    Datasource.featureset ops ds =
        Datasource.featureset.finish (ds.features (buildQuery ops e desc)) ∧
    MemoryDatasource.featureset ops (some ds) =
        MemoryDatasource.featureset.finish (ds.features (buildQuery ops e desc)) ∧
    (buildQuery query.ops e desc).bbox = e ∧
    (buildQuery query.ops e desc).names = desc.map attribute_descriptor.get_name := by
  refine ⟨?_, ?_, ?_, ?_⟩
  · unfold Datasource.featureset
    rw [runQuery_ok ops ds e desc he hd]
  · unfold MemoryDatasource.featureset
    simp only
    rw [runQuery_ok ops ds e desc he hd]
  · rw [buildQuery_spec]
  · rw [buildQuery_spec]

theorem featureset_query_witness :
    Datasource.featureset query.ops echoBackend =
        Datasource.featureset.finish (echoBackend.features (buildQuery query.ops
          ⟨JSNumber.finite 0, JSNumber.finite 1, JSNumber.finite 2, JSNumber.finite 3⟩
          [⟨"name", 0⟩, ⟨"area", 1⟩])) ∧
    MemoryDatasource.featureset query.ops (some echoBackend) =
        MemoryDatasource.featureset.finish (echoBackend.features (buildQuery query.ops
          ⟨JSNumber.finite 0, JSNumber.finite 1, JSNumber.finite 2, JSNumber.finite 3⟩
          [⟨"name", 0⟩, ⟨"area", 1⟩])) ∧
    (buildQuery query.ops
        ⟨JSNumber.finite 0, JSNumber.finite 1, JSNumber.finite 2, JSNumber.finite 3⟩
        [⟨"name", 0⟩, ⟨"area", 1⟩]).bbox =
      ⟨JSNumber.finite 0, JSNumber.finite 1, JSNumber.finite 2, JSNumber.finite 3⟩ ∧
    (buildQuery query.ops
        ⟨JSNumber.finite 0, JSNumber.finite 1, JSNumber.finite 2, JSNumber.finite 3⟩
        [⟨"name", 0⟩, ⟨"area", 1⟩]).names =
      [(⟨"name", 0⟩ : attribute_descriptor), ⟨"area", 1⟩].map attribute_descriptor.get_name :=
  featureset_query query.ops echoBackend
    ⟨JSNumber.finite 0, JSNumber.finite 1, JSNumber.finite 2, JSNumber.finite 3⟩
    [⟨"name", 0⟩, ⟨"area", 1⟩] rfl rfl

/-- C10, counterexample: on a backend whose query execution yields no cursor,
both `featureset` methods complete with `undefined`: no featureset is returned
and no error is raised. -/
theorem featureset_null_cursor :
    runQuery query.ops nullCursorBackend = Except.ok none ∧
    Datasource.featureset query.ops nullCursorBackend = FeaturesetResult.undefined ∧
    MemoryDatasource.featureset query.ops (some nullCursorBackend) =
      FeaturesetResult.undefined ∧
    (¬ ∃ e, Datasource.featureset query.ops nullCursorBackend = FeaturesetResult.threw e) ∧
    (¬ ∃ e, MemoryDatasource.featureset query.ops (some nullCursorBackend) =
      FeaturesetResult.threw e) := by
  refine ⟨rfl, rfl, rfl, ?_, ?_⟩
  · rintro ⟨e, he⟩; cases he
  · rintro ⟨e, he⟩; cases he

/-- C10, amended: for every datasource, Backed or Memory, whose backend gives
its envelope and descriptor and whose query execution yields no cursor,
`featureset` raises no error and returns `undefined` instead of a
featureset. -/
theorem featureset_no_cursor {Q FS : Type} (ops : QueryOps Q) (ds : datasource Q FS)
    (e : box2d) (desc : List attribute_descriptor) (he : ds.envelope = Except.ok e)
    (hd : ds.get_descriptor = Except.ok desc)
    (hnull : ds.features (buildQuery ops e desc) = Except.ok none) :
    Datasource.featureset ops ds = FeaturesetResult.undefined ∧
    MemoryDatasource.featureset ops (some ds) = FeaturesetResult.undefined := by
  constructor
  · unfold Datasource.featureset
    rw [runQuery_ok ops ds e desc he hd, hnull]
    rfl
  · unfold MemoryDatasource.featureset
    simp only
    rw [runQuery_ok ops ds e desc he hd, hnull]
    rfl

theorem featureset_no_cursor_witness :
    Datasource.featureset query.ops nullCursorBackend = FeaturesetResult.undefined ∧
    MemoryDatasource.featureset query.ops (some nullCursorBackend) =
      FeaturesetResult.undefined :=
  featureset_no_cursor query.ops nullCursorBackend
    ⟨JSNumber.finite 0, JSNumber.finite 0, JSNumber.finite 1, JSNumber.finite 1⟩ [] rfl rfl rfl

/-! ## Doubles and 64-bit integers -/

theorem excessBits_le (fuel a j : Nat) (hj : a / 2 ^ j < 2 ^ 53) :
    JSNumber.excessBits fuel a ≤ j := by
  induction fuel generalizing a j with
  | zero => simp [JSNumber.excessBits]
  | succ fuel ih =>
    unfold JSNumber.excessBits
    split_ifs with hsmall
    · exact Nat.zero_le _
    · cases j with
      | zero => simp at hj; exact absurd hj hsmall
      | succ j =>
        have h2 : a / 2 / 2 ^ j < 2 ^ 53 := by
          rw [Nat.div_div_eq_div_mul, ← pow_succ']
          exact hj
        have := ih (a / 2) j h2
        omega

theorem round53_exact (m k : Nat) (hm : m < 2 ^ 53) :
    JSNumber.round53 (m * 2 ^ k) = m * 2 ^ k := by
  have hj : m * 2 ^ k / 2 ^ k < 2 ^ 53 := by
    rw [Nat.mul_div_cancel _ (by positivity)]; exact hm
  have hle := excessBits_le (m * 2 ^ k) (m * 2 ^ k) k hj
  have hdvd : 2 ^ JSNumber.excessBits (m * 2 ^ k) (m * 2 ^ k) ∣ m * 2 ^ k :=
    Dvd.dvd.mul_left (pow_dvd_pow 2 hle) m
  have hmod : m * 2 ^ k % 2 ^ JSNumber.excessBits (m * 2 ^ k) (m * 2 ^ k) = 0 :=
    Nat.mod_eq_zero_of_dvd hdvd
  have hhalf : 0 < 2 ^ (JSNumber.excessBits (m * 2 ^ k) (m * 2 ^ k) - 1) := by positivity
  unfold JSNumber.round53
  simp only [hmod]
  split_ifs with h0 hc
  · rfl
  · rcases hc with hc | ⟨hc, _⟩ <;> omega
  · exact Nat.div_mul_cancel hdvd

theorem trunc_natAbs_le (q : ℚ) : (JSNumber.trunc q).natAbs ≤ q.num.natAbs := by
  unfold JSNumber.trunc
  split_ifs
  · exact Int.natAbs_div_le_natAbs _ _
  · rw [Int.natAbs_neg]
    calc ((-q.num) / (q.den : Int)).natAbs ≤ (-q.num).natAbs := Int.natAbs_div_le_natAbs _ _
      _ = q.num.natAbs := Int.natAbs_neg _

theorem trunc_natAbs_repr (q : ℚ) (hq : IsDouble q) :
    ∃ m k : Nat, m < 2 ^ 53 ∧ (JSNumber.trunc q).natAbs = m * 2 ^ k := by
  obtain ⟨m, e, hm, rfl⟩ := hq
  cases e with
  | ofNat k =>
    have hq : (m : ℚ) * (2 : ℚ) ^ (Int.ofNat k) = ((m * 2 ^ k : Int) : ℚ) := by
      simp [zpow_natCast]
    rw [hq, trunc_of_den_one _ (Rat.intCast_den _), Rat.intCast_num]
    exact ⟨m.natAbs, k, hm, by rw [Int.natAbs_mul, Int.natAbs_pow]; rfl⟩
  | negSucc k =>
    have hq : (m : ℚ) * (2 : ℚ) ^ (Int.negSucc k) = Rat.divInt m (2 ^ (k + 1)) := by
      rw [zpow_negSucc, Rat.divInt_eq_div]
      push_cast
      rfl
    rw [hq]
    refine ⟨(JSNumber.trunc (Rat.divInt m (2 ^ (k + 1)))).natAbs, 0, ?_, by simp⟩
    have h1 := trunc_natAbs_le (Rat.divInt m (2 ^ (k + 1)))
    have h2 : (Rat.divInt m (2 ^ (k + 1))).num ∣ m := Rat.num_dvd m (by positivity)
    by_cases hm0 : m = 0
    · subst hm0
      simp only [Rat.zero_divInt, Rat.num_zero, Int.natAbs_zero, Nat.le_zero] at h1
      rw [Rat.zero_divInt, h1]
      positivity
    · have h3 : (Rat.divInt m (2 ^ (k + 1))).num.natAbs ≤ m.natAbs :=
        Nat.le_of_dvd (Int.natAbs_pos.2 hm0) (Int.natAbs_dvd_natAbs.2 h2)
      omega

theorem int64ToDouble_of_repr (i : Int) (hi : ∃ m k : Nat, m < 2 ^ 53 ∧ i.natAbs = m * 2 ^ k) :
    JSNumber.int64ToDouble i = (i : ℚ) := by
  obtain ⟨m, k, hm, hmk⟩ := hi
  unfold JSNumber.int64ToDouble
  rw [hmk, round53_exact m k hm, ← hmk]
  split_ifs with hs
  · have h1 : ((i.natAbs : Nat) : Int) = i := Int.natAbs_of_nonneg hs
    have h2 : (((i.natAbs : Nat) : Int) : ℚ) = (i : ℚ) := by rw [h1]
    rwa [Int.cast_natCast] at h2
  · have h1 : ((i.natAbs : Nat) : Int) = -i := Int.ofNat_natAbs_of_nonpos (by omega)
    have h2 : (((i.natAbs : Nat) : Int) : ℚ) = ((-i : Int) : ℚ) := by rw [h1]
    rw [Int.cast_natCast, Int.cast_neg] at h2
    rw [h2, neg_neg]

theorem int64ToDouble_trunc (q : ℚ) (hq : IsDouble q) :
    JSNumber.int64ToDouble (JSNumber.trunc q) = ((JSNumber.trunc q : Int) : ℚ) :=
  int64ToDouble_of_repr _ (trunc_natAbs_repr q hq)

theorem eq_trunc_iff (q : ℚ) : q = ((JSNumber.trunc q : Int) : ℚ) ↔ q.den = 1 := by
  constructor
  · intro h
    rw [h]
    exact Rat.intCast_den _
  · intro h
    rw [trunc_of_den_one q h, cast_num_of_den_one q h]

theorem int64ToDouble_max : JSNumber.int64ToDouble (2 ^ 63 - 1) = (2 : ℚ) ^ 63 := by
  have h0 : ((2 ^ 63 - 1 : Int)).natAbs = 9223372036854775807 := by decide
  have h1 : JSNumber.round53 9223372036854775807 = 2 ^ 63 := by decide
  unfold JSNumber.int64ToDouble
  rw [h0, h1, if_pos (by decide)]
  norm_num

theorem int64ToDouble_min : JSNumber.int64ToDouble (-(2 ^ 63)) = -(2 : ℚ) ^ 63 := by
  have h0 : ((-(2 ^ 63) : Int)).natAbs = 9223372036854775808 := by decide
  have h1 : JSNumber.round53 9223372036854775808 = 2 ^ 63 := by decide
  unfold JSNumber.int64ToDouble
  rw [h0, h1, if_neg (by decide)]
  norm_num

/-! ## Feature attributes set by `add` -/

theorem add_step_eq (h : Host) (tr_ : transcoder) (p_obj : JSObject) (f : feature_impl)
    (name : String) :
    MemoryDatasource.add.step h tr_ p_obj f name =
      { f with data := assignOption name (propertyValue h tr_ (p_obj.Get name)) f.data } := by
  unfold MemoryDatasource.add.step propertyValue
  simp only [TOSTR, feature_impl.put_new]
  split_ifs <;> rfl

theorem add_loop_data (h : Host) (tr_ : transcoder) (p_obj : JSObject) (names : List String)
    (f : feature_impl) :
    (names.foldl (MemoryDatasource.add.step h tr_ p_obj) f).data =
      names.foldl (fun acc n => assignOption n (propertyValue h tr_ (p_obj.Get n)) acc)
        f.data := by
  induction names generalizing f with
  | nil => rfl
  | cons n rest ih =>
    rw [List.foldl_cons, List.foldl_cons, ih, add_step_eq]

/-- On a finite double other than 2^63 the loop stores what the amended spec
says. -/
theorem propertyValue_finite (h : Host) (tr_ : transcoder) (q : ℚ) (hq : IsDouble q)
    (hne : q ≠ (2 : ℚ) ^ 63) :
    propertyValue h tr_ (JSValue.number (JSNumber.finite q)) =
      specProperty h tr_ (JSValue.number (JSNumber.finite q)) := by
  have hcode : propertyValue h tr_ (JSValue.number (JSNumber.finite q)) =
      if q = JSNumber.int64ToDouble (JSNumber.IntegerValue (JSNumber.finite q)) then
        some (mapnik.value.integer (JSNumber.IntegerValue (JSNumber.finite q)))
      else some (mapnik.value.double (JSNumber.finite q)) := by
    unfold propertyValue
    simp only [JSValue.IsString, JSValue.IsNumber, JSValue.NumberValue, JSValue.IntegerValue,
      JSNumber.eqInt64, decide_eq_true_eq]
    rfl
  have hspec : specProperty h tr_ (JSValue.number (JSNumber.finite q)) =
      if q.den = 1 ∧ -(2 : Int) ^ 63 ≤ q.num ∧ q.num < 2 ^ 63 then
        some (mapnik.value.integer q.num)
      else some (mapnik.value.double (JSNumber.finite q)) := rfl
  rw [hcode, hspec]
  by_cases h1 : (2 : ℚ) ^ 63 ≤ q
  · have hiv : JSNumber.IntegerValue (JSNumber.finite q) = 2 ^ 63 - 1 := by
      simp only [JSNumber.IntegerValue, if_pos h1]
    rw [hiv, int64ToDouble_max, if_neg hne, if_neg]
    rintro ⟨hden, _, hlt⟩
    rw [← cast_num_of_den_one q hden] at h1
    have : (2 : Int) ^ 63 ≤ q.num := by exact_mod_cast h1
    omega
  · by_cases h2 : q ≤ -(2 : ℚ) ^ 63
    · have hiv : JSNumber.IntegerValue (JSNumber.finite q) = -(2 ^ 63) := by
        simp only [JSNumber.IntegerValue, if_neg h1, if_pos h2]
      rw [hiv, int64ToDouble_min]
      by_cases h3 : q = -(2 : ℚ) ^ 63
      · have hq2 : q = (((-(2 ^ 63) : Int)) : ℚ) := by rw [h3]; push_cast; rfl
        have hden : q.den = 1 := by rw [hq2]; exact Rat.intCast_den _
        have hnum : q.num = -(2 ^ 63) := by rw [hq2]; exact Rat.intCast_num _
        rw [if_pos h3, if_pos ⟨hden, by omega, by omega⟩, hnum]
      · rw [if_neg h3, if_neg]
        rintro ⟨hden, hlo, _⟩
        have hlt : q < -(2 : ℚ) ^ 63 := lt_of_le_of_ne h2 h3
        rw [← cast_num_of_den_one q hden] at hlt
        have : q.num < -(2 : Int) ^ 63 := by exact_mod_cast hlt
        omega
    · have hiv : JSNumber.IntegerValue (JSNumber.finite q) = JSNumber.trunc q := by
        simp only [JSNumber.IntegerValue, if_neg h1, if_neg h2]
      rw [hiv, int64ToDouble_trunc q hq]
      by_cases hden : q.den = 1
      · have hlo : -(2 : Int) ^ 63 < q.num := by
          have h2' : -(2 : ℚ) ^ 63 < q := lt_of_not_le h2
          rw [← cast_num_of_den_one q hden] at h2'
          exact_mod_cast h2'
        have hhi : q.num < (2 : Int) ^ 63 := by
          have h1' : q < (2 : ℚ) ^ 63 := lt_of_not_le h1
          rw [← cast_num_of_den_one q hden] at h1'
          exact_mod_cast h1'
        rw [if_pos ((eq_trunc_iff q).2 hden), if_pos ⟨hden, by omega, hhi⟩,
          trunc_of_den_one q hden]
      · rw [if_neg (fun hh => hden ((eq_trunc_iff q).1 hh)), if_neg (fun hh => hden hh.1)]

/-- On every value but the double 2^63 the loop stores what the amended spec
says. -/
theorem propertyValue_eq_spec (h : Host) (tr_ : transcoder) (v : JSValue)
    (hv : ∀ q : ℚ, v = JSValue.number (JSNumber.finite q) → IsDouble q ∧ q ≠ (2 : ℚ) ^ 63) :
    propertyValue h tr_ v = specProperty h tr_ v := by
  cases v with
  | number n =>
    cases n with
    | finite q => exact propertyValue_finite h tr_ q (hv q rfl).1 (hv q rfl).2
    | negZero =>
      unfold propertyValue specProperty
      simp [JSValue.IsString, JSValue.IsNumber, JSValue.NumberValue, JSValue.IntegerValue,
        JSNumber.eqInt64, JSNumber.IntegerValue, JSNumber.int64ToDouble, JSNumber.round53,
        JSNumber.excessBits]
    | _ => rfl
  | _ => rfl

theorem has_of_lookup {record : JSObject} {key : String} {v : JSValue}
    (hl : record.lookup key = some v) : record.Has key = true := by
  unfold JSObject.Has; rw [hl]; rfl

/-- The attributes of the feature built from a record whose `properties` is an
object. -/
theorem add_feature_get (h : Host) (tr_ : transcoder) (fid : Nat) (record p_obj : JSObject)
    (hp : record.lookup "properties" = some (JSValue.object p_obj)) (k : String) :
    (MemoryDatasource.add.feature h tr_ fid record).get k =
      match p_obj.lookup k with
      | some v => propertyValue h tr_ v
      | none => none := by
  unfold MemoryDatasource.add.feature feature_impl.get
  simp only [has_of_lookup hp, get_of_lookup hp, JSValue.IsObject, asObject, if_true]
  rw [add_loop_data,
    lookup_foldl_assign_opt (fun n => propertyValue h tr_ (JSObject.Get p_obj n))]
  have hmem : k ∈ JSObject.GetPropertyNames p_obj ↔ (p_obj.lookup k).isSome = true :=
    mem_keys_iff_lookup k p_obj
  cases hl : p_obj.lookup k with
  | none =>
    rw [hl] at hmem
    rw [if_neg (fun hh => by simpa using hmem.1 hh)]
    rfl
  | some v =>
    rw [hl] at hmem
    rw [if_pos (hmem.2 rfl), get_of_lookup hl]
    cases hpv : propertyValue h tr_ v <;>
      simp [feature_factory.create, feature_impl.set_geometry, hpv]

/-- The feature built from a record whose `properties` is missing or is not an
object has no attributes. -/
theorem add_feature_no_properties (h : Host) (tr_ : transcoder) (fid : Nat)
    (record : JSObject)
    (hp : ∀ p_obj, record.lookup "properties" ≠ some (JSValue.object p_obj)) :
    (MemoryDatasource.add.feature h tr_ fid record).data = [] := by
  unfold MemoryDatasource.add.feature
  simp only
  split_ifs with h1 h2
  · exfalso
    unfold JSObject.Get at h2
    cases hl : record.lookup "properties" with
    | none => rw [hl] at h2; cases h2
    | some v =>
      rw [hl] at h2
      cases v with
      | object p_obj => exact hp p_obj hl
      | _ => cases h2
  · rfl
  · rfl

/-- C5, counterexample: the record `{x: 0, y: 0, properties: {a: 2^64}}` is
accepted; its property `a` is a double equal to its own truncation to integer,
and the inserted feature holds it as a Double, not as the Integer of that value
that the claim asks for. -/
theorem add_properties_huge_integer :
    IsDouble 18446744073709551616 ∧ (18446744073709551616 : ℚ).den = 1 ∧
    (MemoryDatasource.add exampleHost ⟨memory_datasource.create [], 1, ⟨"utf8"⟩⟩
        [JSValue.object [("x", JSValue.number (JSNumber.finite 0)),
          ("y", JSValue.number (JSNumber.finite 0)),
          ("properties", JSValue.object
            [("a", JSValue.number (JSNumber.finite 18446744073709551616))])]]).1 =
      Completion.returned true ∧
    (MemoryDatasource.add exampleHost ⟨memory_datasource.create [], 1, ⟨"utf8"⟩⟩
        [JSValue.object [("x", JSValue.number (JSNumber.finite 0)),
          ("y", JSValue.number (JSNumber.finite 0)),
          ("properties", JSValue.object
            [("a", JSValue.number (JSNumber.finite 18446744073709551616))])]]
      ).2.datasource_.features_.map (fun f => f.get "a") =
      [some (mapnik.value.double (JSNumber.finite 18446744073709551616))] ∧
    claimedProperty exampleHost ⟨"utf8"⟩
        (JSValue.number (JSNumber.finite 18446744073709551616)) =
      some (mapnik.value.integer 18446744073709551616) := by
  refine ⟨⟨1, 64, by decide, by norm_num⟩, by decide, by decide, by decide, by decide⟩

/-- C5, amended: for an accepted record whose `properties` is an object, the
inserted feature has, for each key, a String when the value is a string, an
Integer of that value when it is a number equal to its own truncation to
integer and inside the signed 64-bit range, a Double when it is any other
number (the double 2^63 left aside), Null when it is null, and no attribute
when it is of any other type; when `properties` is missing or is not an object
the feature has no attributes; and `add` returns true in both cases. The
condition on numbers is asked only of the value under the key in question: it
is a double, and it is not 2^63. -/
theorem add_properties (h : Host) (d : MemoryDatasource) (record : JSObject)
    (x y : JSNumber) (hwkt : ¬ hasKey record "wkt")
    (hx : record.lookup "x" = some (JSValue.number x))
    (hy : record.lookup "y" = some (JSValue.number y)) :
    ∃ f : feature_impl,
      (MemoryDatasource.add h d [JSValue.object record]).1 = Completion.returned true ∧
      (MemoryDatasource.add h d [JSValue.object record]).2.datasource_.features_ =
        d.datasource_.features_ ++ [f] ∧
      (∀ p_obj : JSObject, record.lookup "properties" = some (JSValue.object p_obj) →
        ∀ k : String,
          (∀ q : ℚ, p_obj.lookup k = some (JSValue.number (JSNumber.finite q)) →
            IsDouble q ∧ q ≠ (2 : ℚ) ^ 63) →
          f.get k =
            match p_obj.lookup k with
            | some v => specProperty h d.tr_ v
            | none => none) ∧
      ((∀ p_obj : JSObject, record.lookup "properties" ≠ some (JSValue.object p_obj)) →
        f.data = []) := by
  have hw : record.Has "wkt" = false := by
    rw [← Bool.not_eq_true, has_iff_hasKey]; exact hwkt
  refine ⟨MemoryDatasource.add.feature h d.tr_ d.feature_id_ record, ?_, ?_, ?_, ?_⟩
  · rw [add_object, hw, presentNumber_of_lookup hx, presentNumber_of_lookup hy]; rfl
  · rw [add_object, hw, presentNumber_of_lookup hx, presentNumber_of_lookup hy]; rfl
  · intro p_obj hp k hnum
    rw [add_feature_get h d.tr_ d.feature_id_ record p_obj hp k]
    cases hl : p_obj.lookup k with
    | none => rfl
    | some v =>
      exact propertyValue_eq_spec h d.tr_ v (fun q hv => hnum q (by rw [hl, hv]))
  · intro hp
    exact add_feature_no_properties h d.tr_ d.feature_id_ record hp

theorem number_of_lookup_eq (p_obj : JSObject) (k : String) (q0 : ℚ) {q : ℚ}
    (h0 : p_obj.lookup k = some (JSValue.number (JSNumber.finite q0)))
    (hl : p_obj.lookup k = some (JSValue.number (JSNumber.finite q))) : q = q0 := by
  rw [h0] at hl
  injection hl with hl
  injection hl with hl
  injection hl with hl
  exact hl.symm

theorem other_of_lookup_eq (p_obj : JSObject) (k : String) (v : JSValue) {q : ℚ}
    (h0 : p_obj.lookup k = some v) (hv : v.IsNumber = false)
    (hl : p_obj.lookup k = some (JSValue.number (JSNumber.finite q))) : False := by
  rw [h0] at hl
  injection hl with hl
  subst hl
  cases hv

theorem add_properties_witness :
    ∃ f : feature_impl,
      (MemoryDatasource.add exampleHost exampleStore [JSValue.object edgeRecord]).1 =
        Completion.returned true ∧
      (MemoryDatasource.add exampleHost exampleStore
          [JSValue.object edgeRecord]).2.datasource_.features_ =
        exampleStore.datasource_.features_ ++ [f] ∧
      f.get "a" = some (mapnik.value.unicode_string "s") ∧
      f.get "b" = some (mapnik.value.integer 3) ∧
      f.get "c" = some (mapnik.value.double (JSNumber.finite (mkRat 7 2))) ∧
      f.get "d" = some mapnik.value.null ∧
      f.get "e" = none ∧
      f.get "z" = none := by
  obtain ⟨f, h1, h2, h3, _⟩ :=
    add_properties exampleHost exampleStore edgeRecord (JSNumber.finite 0) (JSNumber.finite 0)
      (by decide) rfl rfl
  have hp : edgeRecord.lookup "properties" = some (JSValue.object edgeProperties) := rfl
  refine ⟨f, h1, h2, ?_, ?_, ?_, ?_, ?_, ?_⟩
  · exact h3 edgeProperties hp "a"
      (fun q hl => (other_of_lookup_eq edgeProperties "a" (JSValue.string "s") rfl rfl hl).elim)
  · refine h3 edgeProperties hp "b" (fun q hl => ?_)
    have hq : q = 3 := number_of_lookup_eq edgeProperties "b" 3 rfl hl
    subst hq
    exact ⟨⟨3, 0, by decide, by norm_num⟩, by norm_num⟩
  · refine h3 edgeProperties hp "c" (fun q hl => ?_)
    have hq : q = mkRat 7 2 := number_of_lookup_eq edgeProperties "c" (mkRat 7 2) rfl hl
    subst hq
    refine ⟨⟨7, -1, by decide, ?_⟩, ?_⟩
    · rw [Rat.mkRat_eq_div]; norm_num
    · rw [Rat.mkRat_eq_div]; norm_num
  · exact h3 edgeProperties hp "d"
      (fun q hl => (other_of_lookup_eq edgeProperties "d" JSValue.null rfl rfl hl).elim)
  · exact h3 edgeProperties hp "e"
      (fun q hl => (other_of_lookup_eq edgeProperties "e" (JSValue.boolean true) rfl rfl hl).elim)
  · refine h3 edgeProperties hp "z" (fun q hl => ?_)
    have hnone : edgeProperties.lookup "z" = none := rfl
    rw [hnone] at hl
    cases hl

/-- The example of the spec, evaluated: `a` becomes a String, `b` an Integer,
`c` a Double, `d` Null, and the boolean `e` is dropped. -/
theorem add_properties_example :
    (MemoryDatasource.add exampleHost exampleStore
        [JSValue.object exampleRecord]).2.datasource_.features_ =
      [{ id := 1
         geom := geometry.point (JSNumber.finite 0) (JSNumber.finite 0)
         data := [("a", mapnik.value.unicode_string "s"), ("b", mapnik.value.integer 3),
           ("c", mapnik.value.double (JSNumber.finite (mkRat 7 2))),
           ("d", mapnik.value.null)] }] := by
  decide

end NodeMapnik
